import Mathlib

/-!
# noxer/intercept: the URL rewriting engine of an intercepting proxy

A shallow embedding of `intercept.go`.  Go strings are modelled by Lean strings
(sequences of Unicode characters; every byte-level test the program makes is
against an ASCII character, so it is the same test on characters).  The pieces
of the Go standard library the program calls (`strings`, `path`, `net/url`)
are embedded next to it, function by function.
-/

namespace Intercept

/-! ## Package `strings` -/

namespace strings

/-- Go `strings.HasPrefix(s, prefix)`. -/
def HasPrefix (s pre : String) : Bool :=
  pre.data.isPrefixOf s.data

/-- Go `strings.TrimLeft(s, cutset)`: drops the leading characters that occur in `cutset`. -/
def TrimLeft (s cutset : String) : String :=
  ⟨s.data.dropWhile (fun c => cutset.data.contains c)⟩

/-- Go `strings.TrimPrefix(s, prefix)`: `s[len(prefix):]` when `s` has the prefix, else `s`. -/
def TrimPrefix (s pre : String) : String :=
  if HasPrefix s pre then ⟨s.data.drop pre.data.length⟩ else s

/-- Index of the last occurrence of the character `c` in `s`, or `-1`
(Go `strings.LastIndex(s, "/")` with a one-character needle). -/
def LastIndexChar : List Char → Char → Int
  | [], _ => -1
  | x :: xs, c =>
    let i := LastIndexChar xs c
    if 0 ≤ i then i + 1 else if x = c then 0 else -1

end strings

/-! ## Package `path` -/

namespace path

/-- The `..` case of `Clean` when it can backtrack: `out.w--` and then
`for out.w > dotdot && out.index(out.w) != '/' { out.w-- }`.
The buffer is held reversed, so its head is the byte at index `out.w - 1`. -/
def backtrack : List Char → Nat → List Char
  | [], _ => []
  | c :: rest, dotdot =>
    if dotdot < rest.length ∧ c ≠ '/' then backtrack rest dotdot else rest

/-- The main loop of Go `path.Clean`.  `rest` is `path[r:]`, `out` is the
written part of the buffer (reversed), `inElem` says that the loop is inside
the `for ; r < n && path[r] != '/'; r++` copy of a real path element. -/
def cleanLoop (rooted : Bool) : Bool → List Char → List Char → Nat → List Char
  | _, [], out, _ => out
  | true, c :: t, out, dotdot =>
    if c = '/' then cleanLoop rooted false t out dotdot
    else cleanLoop rooted true t (c :: out) dotdot
  | false, c :: t, out, dotdot =>
    if c = '/' then
      -- empty path element
      cleanLoop rooted false t out dotdot
    else if c = '.' ∧ (t = [] ∨ t.head? = some '/') then
      -- . element
      cleanLoop rooted false t out dotdot
    else if c = '.' ∧ t.head? = some '.' ∧ (t.tail = [] ∨ t.tail.head? = some '/') then
      -- .. element: remove to last /
      match t with
      | [] => out
      | _ :: t2 =>
        if dotdot < out.length then
          cleanLoop rooted false t2 (backtrack out dotdot) dotdot
        else if !rooted then
          let out1 := if 0 < out.length then '/' :: out else out
          let out2 := '.' :: '.' :: out1
          cleanLoop rooted false t2 out2 out2.length
        else
          cleanLoop rooted false t2 out dotdot
    else
      -- real path element: add slash if needed, then copy the element
      let out1 :=
        if (rooted ∧ out.length ≠ 1) ∨ (!rooted ∧ out.length ≠ 0) then '/' :: out else out
      cleanLoop rooted true t (c :: out1) dotdot

/-- Go `path.Clean`: the shortest path name equivalent to `path` by purely lexical processing. -/
def Clean (path : String) : String :=
  match path.data with
  | [] => "."
  | c :: t =>
    let rooted : Bool := c = '/'
    let out := if rooted then cleanLoop true false t ['/'] 1 else cleanLoop false false (c :: t) [] 0
    if out.length = 0 then "." else ⟨out.reverse⟩

/-- Go `path.Split`: `i := strings.LastIndex(path, "/"); return path[:i+1], path[i+1:]`. -/
def Split (path : String) : String × String :=
  let i := strings.LastIndexChar path.data '/'
  (⟨path.data.take (i + 1).toNat⟩, ⟨path.data.drop (i + 1).toNat⟩)

/-- Go `path.Dir`: all but the last element of `path`, cleaned. -/
def Dir (path : String) : String :=
  Clean (Split path).1

/-- The body of the second loop of Go `path.Join`: appends one element to `buf`. -/
def joinStep (buf : List Char) (e : String) : List Char :=
  if 0 < buf.length ∨ e ≠ "" then
    (if 0 < buf.length then buf ++ ['/'] else buf) ++ e.data
  else buf

/-- Go `path.Join`: joins the elements with slashes, ignoring empty ones, and cleans the result. -/
def Join (elem : List String) : String :=
  let size := (elem.map (fun e => e.data.length)).sum
  if size = 0 then ""
  else Clean ⟨elem.foldl joinStep []⟩

end path

/-! ## Package `net/url` -/

namespace url

/-- Go `url.Userinfo`: the username and password details of a URL. -/
structure Userinfo where
  username : String
  password : String
  passwordSet : Bool
  deriving DecidableEq, Repr

/-- Go `url.URL`; `User` is `none` for the nil pointer. -/
structure URL where
  Scheme : String := ""
  Opaque : String := ""
  User : Option Userinfo := none
  Host : String := ""
  Path : String := ""
  RawPath : String := ""
  OmitHost : Bool := false
  ForceQuery : Bool := false
  RawQuery : String := ""
  Fragment : String := ""
  RawFragment : String := ""
  deriving DecidableEq, Repr

/-- Go `url.encoding`: which part of a URL is being escaped. -/
inductive encoding where
  | encodePath
  | encodePathSegment
  | encodeHost
  | encodeZone
  | encodeUserPassword
  | encodeQueryComponent
  | encodeFragment
  deriving DecidableEq, Repr

/-- The UTF-8 bytes of a character: the bytes a Go string holds for it. -/
def utf8 (c : Char) : List Nat :=
  let n := c.toNat
  if n < 0x80 then [n]
  else if n < 0x800 then [0xC0 + n / 64, 0x80 + n % 64]
  else if n < 0x10000 then [0xE0 + n / 4096, 0x80 + n / 64 % 64, 0x80 + n % 64]
  else [0xF0 + n / 262144, 0x80 + n / 4096 % 64, 0x80 + n / 64 % 64, 0x80 + n % 64]

/-- The bytes of a Go string. -/
def bytes (s : String) : List Nat :=
  s.data.flatMap utf8

/-- The characters that Go `shouldEscape` lets through in a host:
`! $ & ' ( ) * + , ; = : [ ] < > "`. -/
def hostChars : List Char :=
  ['!', '$', '&', Char.ofNat 39, '(', ')', '*', '+', ',', ';', '=', ':', '[', ']', '<', '>',
    Char.ofNat 34]

/-- Go `url.shouldEscape` on an ASCII byte. -/
def shouldEscape (c : Char) (mode : encoding) : Bool :=
  if c.isAlphanum then false
  else if (mode = .encodeHost ∨ mode = .encodeZone) ∧ c ∈ hostChars then false
  else if c ∈ ['-', '_', '.', '~'] then false
  else if c ∈ ['$', '&', '+', ',', '/', ':', ';', '=', '?', '@'] ∧
      mode ∈ [encoding.encodePath, .encodePathSegment, .encodeUserPassword,
        .encodeQueryComponent, .encodeFragment] then
    match mode with
    | .encodePath => c = '?'
    | .encodePathSegment => c = '/' ∨ c = ';' ∨ c = ',' ∨ c = '?'
    | .encodeUserPassword => c = '@' ∨ c = '/' ∨ c = '?' ∨ c = ':'
    | .encodeQueryComponent => true
    | _ => false
  else if mode = .encodeFragment ∧ c ∈ ['!', '(', ')', '*'] then false
  else true

/-- The digit of `"0123456789ABCDEF"` at index `n`. -/
def upperhex (n : Nat) : Char :=
  if n < 10 then Char.ofNat (48 + n) else Char.ofNat (55 + n)

/-- The three characters `%XX` that escape the byte `b`. -/
def pct (b : Nat) : List Char :=
  ['%', upperhex (b / 16), upperhex (b % 16)]

/-- Go `url.escape` on one character: an ASCII byte is kept, turned to `+`
(a space of a query component) or `%XX`-escaped; each byte of a non-ASCII
character is escaped. -/
def escapeChar (mode : encoding) (c : Char) : List Char :=
  if c.toNat < 0x80 then
    if shouldEscape c mode then
      if c = ' ' ∧ mode = .encodeQueryComponent then ['+'] else pct c.toNat
    else [c]
  else (utf8 c).flatMap pct

/-- Go `url.escape`. -/
def escape (s : String) (mode : encoding) : String :=
  ⟨s.data.flatMap (escapeChar mode)⟩

/-- Go `url.ishex`. -/
def ishex (c : Char) : Bool :=
  ('0' ≤ c ∧ c ≤ '9') ∨ ('a' ≤ c ∧ c ≤ 'f') ∨ ('A' ≤ c ∧ c ≤ 'F')

/-- Go `url.unhex`. -/
def unhex (c : Char) : Nat :=
  if '0' ≤ c ∧ c ≤ '9' then c.toNat - 48
  else if 'a' ≤ c ∧ c ≤ 'f' then c.toNat - 97 + 10
  else if 'A' ≤ c ∧ c ≤ 'F' then c.toNat - 65 + 10
  else 0

/-- Go `url.unescape`, as the bytes of its result; `none` is an error return. -/
def unescape : List Char → encoding → Option (List Nat)
  | [], _ => some []
  | '%' :: a :: b :: t, mode =>
    if ishex a ∧ ishex b then
      let v := unhex a * 16 + unhex b
      if mode = .encodeHost ∧ unhex a < 8 ∧ [a, b] ≠ ['2', '5'] then none
      else if mode = .encodeZone ∧ [a, b] ≠ ['2', '5'] ∧ v ≠ 32 ∧
          (0x80 ≤ v ∨ shouldEscape (Char.ofNat v) .encodeHost) then none
      else (unescape t mode).map (fun r => v :: r)
    else none
  | '%' :: _, _ => none
  | c :: t, mode =>
    if (mode = .encodeHost ∨ mode = .encodeZone) ∧ c.toNat < 0x80 ∧ shouldEscape c .encodeHost then
      none
    else if c = '+' ∧ mode = .encodeQueryComponent then (unescape t mode).map (fun r => 32 :: r)
    else (unescape t mode).map (fun r => utf8 c ++ r)

/-- Go `url.validEncoded`: whether `s` is a valid encoded path or fragment. -/
def validEncoded (s : String) (mode : encoding) : Bool :=
  s.data.all (fun c =>
    c ∈ ['!', '$', '&', Char.ofNat 39, '(', ')', '*', '+', ',', ';', '=', ':', '@', '[', ']', '%']
      ∨ ¬ (0x80 ≤ c.toNat ∨ shouldEscape c mode))

/-- Go `(*Userinfo).String`: the encoded `username[:password]`. -/
def Userinfo.String (u : Userinfo) : String :=
  let s := escape u.username .encodeUserPassword
  if u.passwordSet then s ++ ":" ++ escape u.password .encodeUserPassword else s

/-- Go `(*URL).EscapedPath`. -/
def URL.EscapedPath (u : URL) : String :=
  if u.RawPath ≠ "" ∧ validEncoded u.RawPath .encodePath ∧
      unescape u.RawPath.data .encodePath = some (bytes u.Path) then u.RawPath
  else if u.Path = "*" then "*"
  else escape u.Path .encodePath

/-- Go `(*URL).EscapedFragment`. -/
def URL.EscapedFragment (u : URL) : String :=
  if u.RawFragment ≠ "" ∧ validEncoded u.RawFragment .encodeFragment ∧
      unescape u.RawFragment.data .encodeFragment = some (bytes u.Fragment) then u.RawFragment
  else escape u.Fragment .encodeFragment

/-- Go `(*URL).String`, embedded from the Go 1.22 source of `net/url`:
reassembles the URL into a string; this is what
`fmt.Sprintf("%s", u)` prints for a `*url.URL`. -/
def URL.String (u : URL) : String :=
  let s1 := if u.Scheme ≠ "" then u.Scheme ++ ":" else ""
  let s2 :=
    if u.Opaque ≠ "" then s1 ++ u.Opaque
    else
      let auth :=
        if u.Scheme ≠ "" ∨ u.Host ≠ "" ∨ u.User.isSome then
          if u.OmitHost ∧ u.Host = "" ∧ u.User.isNone then ""
          else
            (if u.Host ≠ "" ∨ u.Path ≠ "" ∨ u.User.isSome then "//" else "")
              ++ (match u.User with
                  | some ui => ui.String ++ "@"
                  | none => "")
              ++ (if u.Host ≠ "" then escape u.Host .encodeHost else "")
        else ""
      let b1 := s1 ++ auth
      let p := u.EscapedPath
      let b2 := if p ≠ "" ∧ p.data.head? ≠ some '/' ∧ u.Host ≠ "" then b1 ++ "/" else b1
      let b3 :=
        if b2 = "" ∧ (p.data.takeWhile (fun c => c ≠ '/')).contains ':' then b2 ++ "./" else b2
      b3 ++ p
  let s3 := if u.ForceQuery ∨ u.RawQuery ≠ "" then s2 ++ "?" ++ u.RawQuery else s2
  if u.Fragment ≠ "" then s3 ++ "#" ++ u.EscapedFragment else s3

end url

open url (URL)

/-! ## `intercept.go`: the URL resolution engine -/

/-- The function `hostURL` of `intercept.go`: `scheme://[user@]host` of a URL. -/
def hostURL (u : URL) : String :=
  let buf := if u.Scheme = "" then "http://" else u.Scheme ++ "://"
  let buf :=
    match u.User with
    | some ui => buf ++ ui.String ++ "@"
    | none => buf
  buf ++ u.Host

/-- The function `localURL` of `intercept.go`: the URL rewritten to lead back through the proxy. -/
def localURL (url : String) (pageURL baseURL : URL) : String :=
  if strings.HasPrefix url "//" then
    baseURL.String ++ pageURL.Scheme ++ ":" ++ url
  else if strings.HasPrefix url "/" then
    baseURL.String ++ hostURL pageURL ++ url
  else if strings.HasPrefix url "http://" ∨ strings.HasPrefix url "https://" then
    baseURL.String ++ url
  else if strings.HasPrefix url "mailto:" then
    url
  else
    baseURL.String ++ hostURL pageURL ++ path.Join [path.Dir pageURL.RawPath, url]

/-- The function `remoteURL` of `intercept.go`: the URL rewritten to its absolute origin. -/
def remoteURL (url : String) (pageURL : URL) : String :=
  if strings.HasPrefix url "//" then
    pageURL.Scheme ++ ":" ++ url
  else if strings.HasPrefix url "/" then
    hostURL pageURL ++ url
  else if strings.HasPrefix url "http://" ∨ strings.HasPrefix url "https://" then
    url
  else if strings.HasPrefix url "mailto:" then
    url
  else
    hostURL pageURL ++ path.Join [path.Dir pageURL.RawPath, url]

/-! ## Package `golang.org/x/net/html` -/

namespace html

/-- Go `atom.Atom`: the tag identity of a node; the rewriter tests for `atom.A`
and `atom.Form` only, every other tag is told apart by its name. -/
inductive Atom where
  | A
  | Form
  | Other (name : String)
  deriving DecidableEq, Repr

/-- Go `html.NodeType`. -/
inductive NodeType where
  | ErrorNode
  | TextNode
  | DocumentNode
  | ElementNode
  | CommentNode
  | DoctypeNode
  | RawNode
  deriving DecidableEq, Repr

/-- Go `html.Attribute`. -/
structure Attribute where
  Namespace : String := ""
  Key : String
  Val : String
  deriving DecidableEq, Repr

/-- Go `*html.Node`, by its `FirstChild` and `NextSibling` links: `nil` is the
nil pointer, and a document is the tree these two links span (`Parent`,
`LastChild` and `PrevSibling` are the same tree read backwards). -/
inductive Node where
  | nil
  | node (Typ : NodeType) (DataAtom : Atom) (Data : String) (Namespace : String)
      (Attr : List Attribute) (FirstChild NextSibling : Node)
  deriving DecidableEq, Repr

end html

open html (Node Attribute Atom)

/-! ## `intercept.go`: the DOM attribute rewriter -/

/-- The body of the attribute loop of `modifyDOM` (the `switch` on one
attribute `a` of a node with tag `DataAtom`): the attribute that is stored
back at `node.Attr[i]`. -/
def modifyAttr (DataAtom : Atom) (a : Attribute) (pageURL baseURL : URL) : Attribute :=
  if (DataAtom = Atom.A ∧ a.Key = "href") ∨ (DataAtom = Atom.Form ∧ a.Key = "action") then
    { a with Val := localURL a.Val pageURL baseURL }
  else if a.Key = "src" ∨ a.Key = "href" ∨ a.Key = "data-src" then
    { a with Val := remoteURL a.Val pageURL }
  else a

/-- The function `modifyDOM` of `intercept.go`: walks the sibling chain of
`node`, rewrites every attribute of each node and recurses into its first
child; the result is the document after the in-place edit. -/
def modifyDOM : Node → URL → URL → Node
  | .nil, _, _ => .nil
  | .node t atm d ns attrs child next, pageURL, baseURL =>
    .node t atm d ns (attrs.map (fun a => modifyAttr atm a pageURL baseURL))
      (modifyDOM child pageURL baseURL) (modifyDOM next pageURL baseURL)

/-! ## `intercept.go`: the base URL normalizer -/

/-- How a Go call ends: a value, a returned `error`, or a run-time panic. -/
inductive Result (α : Type) where
  | ok (v : α)
  | error (err : String)
  | panic (msg : String)
  deriving DecidableEq, Repr

/-- The function `normalizeURL` of `intercept.go`.  `Parse` is Go `url.Parse`
(an error return is `Except.error`).  The index expression
`u.Path[len(u.Path)-1]` panics on an empty path. -/
def normalizeURL (Parse : String → Except String URL) (baseURL : String) : Result URL :=
  match Parse baseURL with
  | .error err => .error err
  | .ok u =>
    let u := if u.Scheme ≠ "http" ∧ u.Scheme ≠ "https" ∧ u.Host ≠ "" then
      { u with Scheme := "http" } else u
    let u := { u with RawQuery := "", Fragment := "" }
    match u.Path.data.getLast? with
    | none => .panic "runtime error: index out of range [-1]"
    | some c => if c ≠ '/' then .ok { u with Path := u.Path ++ "/" } else .ok u

/-- Go `Intercepter`: the modifier pipeline and the base URL. -/
structure Intercepter where
  Modifier : List (Node → URL → Node)
  BaseURL : URL

/-- The function `DefaultModifier` of `intercept.go`. -/
def DefaultModifier (baseURL : URL) : Node → URL → Node :=
  fun root pageURL => modifyDOM root pageURL baseURL

/-- The function `DefaultIntercepter` of `intercept.go`. -/
def DefaultIntercepter (Parse : String → Except String URL) (base : String) :
    Result Intercepter :=
  match normalizeURL Parse base with
  | .error err => .error err
  | .panic msg => .panic msg
  | .ok baseURL => .ok { Modifier := [DefaultModifier baseURL], BaseURL := baseURL }

/-! ## `intercept.go`: the request handler -/

/-- The first step of `Intercepter.ServeHTTP`: the URL of the upstream request,
computed from `u := r.URL.String()`. -/
def ServeHTTP.target (u : String) : String :=
  let u := strings.TrimLeft u "/"
  -- Fix the http:/ issue
  if strings.HasPrefix u "http:" then
    "http://" ++ strings.TrimLeft (strings.TrimPrefix u "http:") "/"
  else if strings.HasPrefix u "http:" then
    "https://" ++ strings.TrimLeft (strings.TrimPrefix u "https:") "/"
  else u

/-- The constant `notFound` of `intercept.go`: the body of the 404 page. -/
def notFound : String :=
  "<!DOCTYPE html><html><head><title>Not found</title></head><body><h1>404 not found</h1>Sorry, we could not find the requested page!</body></html>"

/-- Go `*http.Request`, the incoming request, as `ServeHTTP` reads it:
`URL` is `r.URL.String()`, `BasicAuth` is `some (user, pass)` when
`r.BasicAuth()` reports `ok`. -/
structure Request where
  URL : String
  Method : String := ""
  Body : List Nat := []
  BasicAuth : Option (String × String) := none
  deriving DecidableEq, Repr

/-- The request `newReq` that `ServeHTTP` sends upstream. -/
structure UpstreamRequest where
  Method : String
  URL : URL
  Body : List Nat
  BasicAuth : Option (String × String)
  deriving DecidableEq, Repr

/-- Go `*http.Response`, the upstream response, as `ServeHTTP` reads it:
`Body` is the result of `ioutil.ReadAll(resp.Body)`, `Location` the result of
`resp.Location()`. -/
structure UpstreamResponse where
  StatusCode : Int
  Body : Except String (List Nat)
  Location : Except String URL

/-- The library calls of `ServeHTTP`: `http.NewRequest(m, u, body)` (the parsed
URL of the new request, or an error), `http.DefaultClient.Do`, `html.Parse`
and `html.Render` (the bytes it writes). -/
structure Env where
  NewRequest : String → String → Except String URL
  Do : UpstreamRequest → Except String UpstreamResponse
  Parse : List Nat → Except String Node
  Render : Node → List Nat

/-- What one call of `ServeHTTP` did: the status and the body written to the
`http.ResponseWriter`, and the page URL passed to each modifier call, in call
order. -/
structure Served where
  StatusCode : Int
  Body : List Nat
  calls : List URL
  deriving DecidableEq, Repr

/-- The function `respond404` of `intercept.go`, called on a fresh response writer. -/
def respond404 : Served :=
  { StatusCode := 404, Body := url.bytes notFound, calls := [] }

/-- The loop `for _, modify := range i.Modifier { modify(doc, pageURL) }` of
`ServeHTTP`: the document after the calls, and the log of the calls. -/
def runModifiers : List (Node → URL → Node) → Node → URL → List URL → Node × List URL
  | [], doc, _, log => (doc, log)
  | modify :: rest, doc, pageURL, log =>
    runModifiers rest (modify doc pageURL) pageURL (log ++ [pageURL])

/-- The part of `Intercepter.ServeHTTP` that builds the upstream request
`newReq`: target URL, method (default `GET`), body and basic auth. -/
def ServeHTTP.newRequest (env : Env) (r : Request) : Except String UpstreamRequest :=
  let u := ServeHTTP.target r.URL
  let m := if r.Method = "" then "GET" else r.Method
  match env.NewRequest m u with
  | .error err => .error err
  | .ok reqURL => .ok { Method := m, URL := reqURL, Body := r.Body, BasicAuth := r.BasicAuth }

/-- The method `Intercepter.ServeHTTP` of `intercept.go`. -/
def ServeHTTP (env : Env) (i : Intercepter) (r : Request) : Served :=
  match ServeHTTP.newRequest env r with
  | .error _ => respond404
  | .ok newReq =>
    -- Perform the request
    match env.Do newReq with
    | .error _ => respond404
    | .ok resp =>
      match resp.Body with
      | .error _ => respond404
      | .ok b =>
        -- Try to parse the result as html
        match env.Parse b with
        | .error _ => { StatusCode := resp.StatusCode, Body := b, calls := [] }
        | .ok doc =>
          let pageURL :=
            match resp.Location with
            | .ok loc => loc
            | .error _ => newReq.URL
          let (doc, log) := runModifiers i.Modifier doc pageURL []
          -- Write the answer to the client
          { StatusCode := resp.StatusCode, Body := env.Render doc, calls := log }

/-! ## Reading a document tree -/

namespace html

/-- One pointer step in a document: to the first child or to the next sibling. -/
inductive Link where
  | FirstChild
  | NextSibling
  deriving DecidableEq, Repr

/-- The node reached from `n` by following the links of `p` (`nil` once a link is nil). -/
def Node.follow : Node → List Link → Node
  | n, [] => n
  | .nil, _ :: _ => .nil
  | .node _ _ _ _ _ child _, .FirstChild :: p => child.follow p
  | .node _ _ _ _ _ _ next, .NextSibling :: p => next.follow p

/-- The attribute keys that some rule of the rewriter names. -/
def rewrittenKeys : List String :=
  ["href", "action", "src", "data-src"]

/-- The attribute with its value blanked when its key is one the rewriter names. -/
def Attribute.blank (a : Attribute) : Attribute :=
  if a.Key ∈ rewrittenKeys then { a with Val := "" } else a

/-- The document with the values of the `href`, `action`, `src` and `data-src`
attributes blanked: everything of a document that is not such a value. -/
def Node.blank : Node → Node
  | .nil => .nil
  | .node t atm d ns attrs child next =>
    .node t atm d ns (attrs.map Attribute.blank) child.blank next.blank

end html

/-- The rewrite rule of the spec for the value `v` of the attribute `k` of an
element with tag `T`: local mode for anchor/href and form/action, remote mode
for src, href and data-src, unchanged otherwise. -/
def rewriteRule (T : Atom) (k v : String) (pageURL baseURL : URL) : String :=
  if (T = Atom.A ∧ k = "href") ∨ (T = Atom.Form ∧ k = "action") then localURL v pageURL baseURL
  else if k = "src" ∨ k = "href" ∨ k = "data-src" then remoteURL v pageURL
  else v

/-! ## The inputs of the examples -/

/-- The base URL `http://proxy.local/inject/`, as `url.Parse` returns it. -/
def exampleBase : URL :=
  { Scheme := "http", Host := "proxy.local", Path := "/inject/" }

/-- The page URL `http://example.com/a/b.html`, as `url.Parse` returns it. -/
def examplePage : URL :=
  { Scheme := "http", Host := "example.com", Path := "/a/b.html" }

/-- The value of `url.Parse("/inject/")`, the base of `example/main.go`: a path only. -/
def parsedInject : URL :=
  { Path := "/inject/" }

/-- The value of `url.Parse("http://proxy.local/inject?x=1#top")`. -/
def parsedInjectQuery : URL :=
  { Scheme := "http", Host := "proxy.local", Path := "/inject", RawQuery := "x=1", Fragment := "top" }

/-- The value of `url.Parse("http://proxy.local")`: a URL with an empty path. -/
def parsedProxyLocal : URL :=
  { Scheme := "http", Host := "proxy.local" }

/-- The page URL `http://example.com/a%2Fb/c.html`, as `url.Parse` returns it:
the path has an escaped slash, so `RawPath` is set. -/
def escapedPage : URL :=
  { Scheme := "http", Host := "example.com", Path := "/a/b/c.html", RawPath := "/a%2Fb/c.html" }

/-- The intercepter with the default modifier for the base `http://proxy.local/inject/`. -/
def exampleIntercepter : Intercepter :=
  { Modifier := [DefaultModifier exampleBase], BaseURL := exampleBase }

/-- A stand-in for `html.Render` in the examples: the bytes of the attribute
values of the document, in document order. -/
def exampleRender : Node → List Nat
  | .nil => []
  | .node _ _ _ _ attrs child next =>
    (attrs.map (fun a => url.bytes a.Val)).flatten ++ exampleRender child ++ exampleRender next

/-- The document `<a href="/login"><img src="/logo.png"></a>`. -/
def exampleDoc : Node :=
  .node .ElementNode Atom.A "a" "" [⟨"", "href", "/login"⟩]
    (.node .ElementNode (Atom.Other "img") "img" "" [⟨"", "src", "/logo.png"⟩, ⟨"", "alt", "/logo"⟩]
      .nil .nil)
    .nil

/-- Library calls of a run in which the upstream connection is refused. -/
def refusedEnv : Env :=
  { NewRequest := fun _ _ => .ok examplePage
    Do := fun _ => .error "connection refused"
    Parse := fun _ => .ok exampleDoc
    Render := exampleRender }

/-- The deepest nesting of open elements in a body of plain tags: a `<`
followed by `/` closes an element, any other `<` opens one.  `cur` is the
number of elements open so far, `deepest` the largest it has been. -/
def openDepth : List Nat → Nat → Nat → Nat
  | [], _, deepest => deepest
  | 60 :: 47 :: t, cur, deepest => openDepth t (cur - 1) deepest
  | 60 :: t, cur, deepest => openDepth t (cur + 1) (max deepest (cur + 1))
  | _ :: t, cur, deepest => openDepth t cur deepest

/-- A stand-in for `html.Parse` that keeps one behaviour of the parser: on a
body of plain tags it returns the error `html: open stack of elements exceeds
512 nodes` once more than 512 elements are open.  What it returns on other
bodies (`exampleDoc`) is not the parser's result, and no example uses it. -/
def depthLimitParse (b : List Nat) : Except String Node :=
  if 512 < openDepth b 0 0 then .error "html: open stack of elements exceeds 512 nodes"
  else .ok exampleDoc

/-- The body of 600 nested `<div>` start tags, 3000 bytes, which `html.Parse`
rejects: its stack of open elements would exceed 512 nodes. -/
def deepBody : List Nat :=
  (List.replicate 600 [60, 100, 105, 118, 62]).flatten

/-- Library calls of a run in which upstream answers 200 with `deepBody`, a
body that `html.Parse` rejects. -/
def unparsableEnv : Env :=
  { NewRequest := fun _ _ => .ok examplePage
    Do := fun _ => .ok { StatusCode := 200, Body := .ok deepBody, Location := .error "" }
    Parse := depthLimitParse
    Render := exampleRender }

/-- Library calls of a run in which upstream answers 200 with a body that
parses to `exampleDoc`, without a `Location` header. -/
def parsedEnv : Env :=
  { NewRequest := fun _ _ => .ok examplePage
    Do := fun _ => .ok { StatusCode := 200, Body := .ok [], Location := .error "" }
    Parse := fun _ => .ok exampleDoc
    Render := exampleRender }

/-! ## Lemmas on prefixes -/

/-- A string with a non-empty prefix starts with the first character of the prefix. -/
theorem strings.head_of_HasPrefix {s pre : String} {c : Char} {t : List Char}
    (hp : pre.data = c :: t) (h : strings.HasPrefix s pre = true) :
    s.data.head? = some c := by
  unfold strings.HasPrefix at h
  rw [hp] at h
  cases hs : s.data with
  | nil => rw [hs] at h; simp at h
  | cons x xs =>
    rw [hs] at h
    simp [List.isPrefixOf] at h
    simp [h.1]

/-- Two prefixes of one string start with the same character. -/
theorem strings.HasPrefix_head_eq {s p q : String} {c d : Char} {t r : List Char}
    (hp : p.data = c :: t) (hq : q.data = d :: r)
    (h1 : strings.HasPrefix s p = true) (h2 : strings.HasPrefix s q = true) : c = d := by
  have a := strings.head_of_HasPrefix hp h1
  have b := strings.head_of_HasPrefix hq h2
  rw [a] at b
  exact Option.some.inj b

/-- A string that starts with `//` starts with `/`. -/
theorem strings.HasPrefix_slash_of_slashslash {s : String}
    (h : strings.HasPrefix s "//" = true) : strings.HasPrefix s "/" = true := by
  unfold strings.HasPrefix at *
  cases hs : s.data with
  | nil => rw [hs] at h; simp [List.isPrefixOf] at h
  | cons x xs =>
    rw [hs] at h
    simp [List.isPrefixOf] at h
    simp [List.isPrefixOf, ← h.1]

/-- The host prefix is longer than the scheme by at least the three characters `://`. -/
theorem hostURL_length (u : URL) : u.Scheme.length + 3 ≤ (hostURL u).length := by
  have h7 : "http://".length = 7 := rfl
  have h3 : "://".length = 3 := rfl
  unfold hostURL
  by_cases hs : u.Scheme = ""
  · cases hu : u.User <;> simp [hs, String.length_append, h7] <;> omega
  · cases hu : u.User <;> simp [hs, String.length_append, h3]
    omega

/-- A string that begins with `https:` does not begin with `http:`. -/
theorem strings.not_http_of_https {s : String}
    (h : strings.HasPrefix s "https:" = true) : strings.HasPrefix s "http:" = false := by
  unfold strings.HasPrefix at *
  have e1 : "https:".data = ['h', 't', 't', 'p', 's', ':'] := rfl
  have e2 : "http:".data = ['h', 't', 't', 'p', ':'] := rfl
  rw [e1] at h
  rw [e2]
  rcases hs : s.data with _ | ⟨a, _ | ⟨b, _ | ⟨c, _ | ⟨d, _ | ⟨e, t⟩⟩⟩⟩⟩ <;>
    rw [hs] at h <;> simp [List.isPrefixOf] at h ⊢
  intro _ _ _ _
  rw [← h.2.2.2.2.1]
  decide

/-- Every request URL string that begins with `https:` once its leading slashes
are stripped is left as stripped: the repair of `https:` is never applied. -/
theorem target_https_only_stripped (r : String)
    (h : strings.HasPrefix (strings.TrimLeft r "/") "https:" = true) :
    ServeHTTP.target r = strings.TrimLeft r "/" := by
  simp [ServeHTTP.target, strings.not_http_of_https h]

/-- A parse error of the base URL is returned by `normalizeURL` and by `DefaultIntercepter`. -/
theorem normalizeURL_of_parse_error (Parse : String → Except String URL) (base err : String)
    (h : Parse base = .error err) :
    normalizeURL Parse base = .error err ∧
    (∃ e, DefaultIntercepter Parse base = .error e) := by
  have hn : normalizeURL Parse base = .error err := by simp [normalizeURL, h]
  exact ⟨hn, err, by simp [DefaultIntercepter, hn]⟩

/-! ## The URL resolution engine -/

/-- C1: for every url that does not begin with `mailto:`, every page URL and
every base URL, `localURL` is the string form of the base followed by
`remoteURL`, so the absolute target is recovered by stripping the base prefix. -/
theorem localURL_eq_base_append_remoteURL (url : String) (pageURL baseURL : URL)
    (h : strings.HasPrefix url "mailto:" = false) :
    localURL url pageURL baseURL = baseURL.String ++ remoteURL url pageURL := by
  unfold localURL remoteURL
  split_ifs <;> simp_all [String.append_assoc]

/-- Witness of C1 at the url `/c`, page `http://example.com/a/b.html`, base `http://proxy.local/inject/`. -/
theorem localURL_eq_base_append_remoteURL_witness :
    strings.HasPrefix "/c" "mailto:" = false ∧
    localURL "/c" examplePage exampleBase
      = exampleBase.String ++ remoteURL "/c" examplePage :=
  ⟨by decide, localURL_eq_base_append_remoteURL "/c" examplePage exampleBase (by decide)⟩

/-- C2 as stated fails: with base `http://proxy.local/inject/` and page
`http://example.com/a/b.html`, the local rewrite of `/c` is not
`http://proxy.local/http://example.com/c`. -/
theorem localURL_example_not_as_stated :
    localURL "/c" examplePage exampleBase ≠ "http://proxy.local/http://example.com/c" := by
  decide

/-- C2, amended: with base `http://proxy.local/inject/` and page
`http://example.com/a/b.html`, the local rewrite of `/c` is the whole base,
its path `/inject/` included, followed by `http://example.com/c`. -/
theorem localURL_example :
    exampleBase.String = "http://proxy.local/inject/" ∧
    localURL "/c" examplePage exampleBase = "http://proxy.local/inject/http://example.com/c" := by
  decide

/-- C3: for every url that begins with `/` but not with `//`, `remoteURL` is
`hostURL(page) ++ url` and `localURL` is `base ++ hostURL(page) ++ url`, where
`hostURL(page)` is the scheme (`http` when empty), `://`, the user-info and
`@` only when user-info is present, and the host. -/
theorem absolute_path_rule (url : String) (pageURL baseURL : URL)
    (h1 : strings.HasPrefix url "/" = true) (h2 : strings.HasPrefix url "//" = false) :
    remoteURL url pageURL = hostURL pageURL ++ url ∧
    localURL url pageURL baseURL = baseURL.String ++ hostURL pageURL ++ url ∧
    hostURL pageURL =
      (if pageURL.Scheme = "" then "http" else pageURL.Scheme) ++ "://" ++
        (match pageURL.User with
          | some ui => ui.String ++ "@"
          | none => "") ++ pageURL.Host := by
  refine ⟨by simp [remoteURL, h1, h2], by simp [localURL, h1, h2], ?_⟩
  unfold hostURL
  by_cases hs : pageURL.Scheme = "" <;> cases hu : pageURL.User <;>
    simp [hs, String.append_assoc]

/-- Witness of C3 at the url `/c` on a page with user-info. -/
theorem absolute_path_rule_witness :
    (strings.HasPrefix "/c" "/" = true ∧ strings.HasPrefix "/c" "//" = false) ∧
    remoteURL "/c" { examplePage with User := some ⟨"bob", "", false⟩ }
      = "http://bob@example.com/c" ∧
    localURL "/c" { examplePage with User := some ⟨"bob", "", false⟩ } exampleBase
      = "http://proxy.local/inject/http://bob@example.com/c" :=
  have h := absolute_path_rule "/c" { examplePage with User := some ⟨"bob", "", false⟩ }
    exampleBase (by decide) (by decide)
  ⟨by decide, h.1.trans (by decide), h.2.1.trans (by decide)⟩

/-- C4: for every url that begins with `//`, `remoteURL` is the page's scheme,
`:` and the url, and `localURL` is the base followed by the same; the `//` rule
is taken although the url also begins with `/`, and the result is not the one
of the `/` rule: `hostURL(page)` is not prepended. -/
theorem protocol_relative_rule (url : String) (pageURL baseURL : URL)
    (h : strings.HasPrefix url "//" = true) :
    remoteURL url pageURL = pageURL.Scheme ++ ":" ++ url ∧
    localURL url pageURL baseURL = baseURL.String ++ pageURL.Scheme ++ ":" ++ url ∧
    strings.HasPrefix url "/" = true ∧
    remoteURL url pageURL ≠ hostURL pageURL ++ url ∧
    localURL url pageURL baseURL ≠ baseURL.String ++ hostURL pageURL ++ url := by
  have hr : remoteURL url pageURL = pageURL.Scheme ++ ":" ++ url := by simp [remoteURL, h]
  have hl : localURL url pageURL baseURL = baseURL.String ++ pageURL.Scheme ++ ":" ++ url := by
    simp [localURL, h]
  have hlen := hostURL_length pageURL
  have h1 : ":".length = 1 := rfl
  refine ⟨hr, hl, strings.HasPrefix_slash_of_slashslash h, ?_, ?_⟩
  · intro e
    rw [hr] at e
    have := congrArg String.length e
    simp only [String.length_append, h1] at this
    omega
  · intro e
    rw [hl] at e
    have := congrArg String.length e
    simp only [String.length_append, h1] at this
    omega

/-- Witness of C4 at the url `//cdn.example.org/x.js`. -/
theorem protocol_relative_rule_witness :
    strings.HasPrefix "//cdn.example.org/x.js" "//" = true ∧
    remoteURL "//cdn.example.org/x.js" examplePage = "http://cdn.example.org/x.js" ∧
    localURL "//cdn.example.org/x.js" examplePage exampleBase
      = "http://proxy.local/inject/http://cdn.example.org/x.js" :=
  have h := protocol_relative_rule "//cdn.example.org/x.js" examplePage exampleBase (by decide)
  ⟨by decide, h.1.trans (by decide), h.2.1.trans (by decide)⟩

/-- C5: for every url that begins with `mailto:`, every page URL and every base
URL, both `localURL` and `remoteURL` return the url unchanged. -/
theorem mailto_unchanged (url : String) (pageURL baseURL : URL)
    (h : strings.HasPrefix url "mailto:" = true) :
    localURL url pageURL baseURL = url ∧ remoteURL url pageURL = url := by
  have n1 : strings.HasPrefix url "/" = false := by
    cases e : strings.HasPrefix url "/" with
    | false => rfl
    | true => exact absurd (strings.HasPrefix_head_eq rfl rfl h e) (by decide)
  have n2 : strings.HasPrefix url "//" = false := by
    cases e : strings.HasPrefix url "//" with
    | false => rfl
    | true => exact absurd (strings.HasPrefix_head_eq rfl rfl h e) (by decide)
  have n3 : strings.HasPrefix url "http://" = false := by
    cases e : strings.HasPrefix url "http://" with
    | false => rfl
    | true => exact absurd (strings.HasPrefix_head_eq rfl rfl h e) (by decide)
  have n4 : strings.HasPrefix url "https://" = false := by
    cases e : strings.HasPrefix url "https://" with
    | false => rfl
    | true => exact absurd (strings.HasPrefix_head_eq rfl rfl h e) (by decide)
  constructor
  · simp [localURL, n1, n2, n3, n4, h]
  · simp [remoteURL, n1, n2, n3, n4, h]

/-- Witness of C5 at the url `mailto:bob@example.com`. -/
theorem mailto_unchanged_witness :
    strings.HasPrefix "mailto:bob@example.com" "mailto:" = true ∧
    localURL "mailto:bob@example.com" examplePage exampleBase = "mailto:bob@example.com" ∧
    remoteURL "mailto:bob@example.com" examplePage = "mailto:bob@example.com" :=
  ⟨by decide, mailto_unchanged "mailto:bob@example.com" examplePage exampleBase (by decide)⟩

/-- C6: for every url that begins with `http://` or `https://`, `remoteURL`
returns the url unchanged and `localURL` returns the base followed by the url. -/
theorem absolute_url_rule (url : String) (pageURL baseURL : URL)
    (h : strings.HasPrefix url "http://" = true ∨ strings.HasPrefix url "https://" = true) :
    remoteURL url pageURL = url ∧ localURL url pageURL baseURL = baseURL.String ++ url := by
  have n1 : strings.HasPrefix url "/" = false := by
    cases e : strings.HasPrefix url "/" with
    | false => rfl
    | true =>
      rcases h with h | h <;>
        exact absurd (strings.HasPrefix_head_eq rfl rfl h e) (by decide)
  have n2 : strings.HasPrefix url "//" = false := by
    cases e : strings.HasPrefix url "//" with
    | false => rfl
    | true =>
      rcases h with h | h <;>
        exact absurd (strings.HasPrefix_head_eq rfl rfl h e) (by decide)
  constructor
  · simp [remoteURL, n1, n2, h]
  · simp [localURL, n1, n2, h]

/-- Witness of C6 at the url `https://example.org/x`. -/
theorem absolute_url_rule_witness :
    (strings.HasPrefix "https://example.org/x" "http://" = true ∨
      strings.HasPrefix "https://example.org/x" "https://" = true) ∧
    remoteURL "https://example.org/x" examplePage = "https://example.org/x" ∧
    localURL "https://example.org/x" examplePage exampleBase
      = "http://proxy.local/inject/https://example.org/x" :=
  have h := absolute_url_rule "https://example.org/x" examplePage exampleBase
    (Or.inr (by decide))
  ⟨Or.inr (by decide), h.1, h.2.trans (by decide)⟩

/-! ## The DOM attribute rewriter -/

/-- C7: the rule for one attribute (key `k`, value `v`) of an element with tag
`T`: the value becomes `localURL v` for an anchor `href` or a form `action`,
else `remoteURL v` for `src`, `href` or `data-src`, else it stays; the key and
the namespace stay.  `modifyDOM` applies this rule once to each attribute of a
node, so an anchor `href` is `localURL v` and is not passed through
`remoteURL` as well.  On the page `http://example.com/a/b.html`, `<a
href="/login">` is rewritten in local mode and `<img src="/logo.png">` becomes
`http://example.com/logo.png`. -/
theorem modifyDOM_attribute_rule :
    (∀ (T : Atom) (ns k v : String) (pageURL baseURL : URL),
      modifyAttr T ⟨ns, k, v⟩ pageURL baseURL =
        ⟨ns, k,
          if (T = Atom.A ∧ k = "href") ∨ (T = Atom.Form ∧ k = "action") then
            localURL v pageURL baseURL
          else if k = "src" ∨ k = "href" ∨ k = "data-src" then remoteURL v pageURL
          else v⟩) ∧
    (∀ (t : html.NodeType) (T : Atom) (d ns : String) (attrs : List Attribute)
        (child next : Node) (pageURL baseURL : URL),
      modifyDOM (.node t T d ns attrs child next) pageURL baseURL =
        .node t T d ns (attrs.map (fun a => modifyAttr T a pageURL baseURL))
          (modifyDOM child pageURL baseURL) (modifyDOM next pageURL baseURL)) ∧
    (∀ (ns v : String) (pageURL baseURL : URL),
      (modifyAttr Atom.A ⟨ns, "href", v⟩ pageURL baseURL).Val = localURL v pageURL baseURL) ∧
    modifyDOM (.node .ElementNode Atom.A "a" "" [⟨"", "href", "/login"⟩] .nil .nil)
        examplePage exampleBase =
      .node .ElementNode Atom.A "a" "" [⟨"", "href", localURL "/login" examplePage exampleBase⟩]
        .nil .nil ∧
    modifyDOM (.node .ElementNode (Atom.Other "img") "img" "" [⟨"", "src", "/logo.png"⟩] .nil .nil)
        examplePage exampleBase =
      .node .ElementNode (Atom.Other "img") "img" "" [⟨"", "src", "http://example.com/logo.png"⟩]
        .nil .nil := by
  refine ⟨?_, ?_, ?_, by decide, by decide⟩
  · intro T ns k v pageURL baseURL
    unfold modifyAttr
    split_ifs <;> rfl
  · intro t T d ns attrs child next pageURL baseURL
    rfl
  · intro ns v pageURL baseURL
    simp [modifyAttr]

/-! ## The target URL of the upstream request -/

/-- C8: on the request URL `/https:/example.com/x` the reconstructed target is
`https:/example.com/x`: the leading slash is stripped and the `https:` prefix
is not repaired to `https://`. -/
theorem target_https_not_repaired :
    ServeHTTP.target "/https:/example.com/x" = "https:/example.com/x" ∧
    ServeHTTP.target "/https:/example.com/x" ≠ "https://example.com/x" := by
  decide

/-- C9: when the request URL string, stripped of its leading slashes, begins
with `http:`, the target is `http://` followed by the remainder after `http:`
with its leading slashes stripped; when it begins with neither `http:` nor
`https:`, the target is the string stripped of its leading slashes. -/
theorem target_http_repaired (r : String) :
    (strings.HasPrefix (strings.TrimLeft r "/") "http:" = true →
      ServeHTTP.target r =
        "http://" ++
          strings.TrimLeft (strings.TrimPrefix (strings.TrimLeft r "/") "http:") "/") ∧
    (strings.HasPrefix (strings.TrimLeft r "/") "http:" = false →
      strings.HasPrefix (strings.TrimLeft r "/") "https:" = false →
      ServeHTTP.target r = strings.TrimLeft r "/") := by
  constructor
  · intro h
    simp [ServeHTTP.target, h]
  · intro h _
    simp [ServeHTTP.target, h]

/-- Witness of C9: `/http:/example.com/x` and `http://example.com/x` both give
`http://example.com/x`, and `//static/app.js` is only stripped of its slashes. -/
theorem target_http_repaired_witness :
    ServeHTTP.target "/http:/example.com/x" = "http://example.com/x" ∧
    ServeHTTP.target "http://example.com/x" = "http://example.com/x" ∧
    ServeHTTP.target "//static/app.js" = "static/app.js" :=
  ⟨((target_http_repaired "/http:/example.com/x").1 (by decide)).trans (by decide),
   ((target_http_repaired "http://example.com/x").1 (by decide)).trans (by decide),
   ((target_http_repaired "//static/app.js").2 (by decide) (by decide)).trans (by decide)⟩

/-! ## The base URL normalizer -/

/-- C10: on the input `http://proxy.local`, which `url.Parse` accepts with an
empty path, `normalizeURL` returns neither a URL nor an error: it panics on
the index `u.Path[len(u.Path)-1]`, and so does `DefaultIntercepter`. -/
theorem normalizeURL_empty_path_panics (Parse : String → Except String URL)
    (h : Parse "http://proxy.local" = .ok parsedProxyLocal) :
    normalizeURL Parse "http://proxy.local" = .panic "runtime error: index out of range [-1]" ∧
    (∀ err, normalizeURL Parse "http://proxy.local" ≠ .error err) ∧
    (∃ msg, DefaultIntercepter Parse "http://proxy.local" = .panic msg) := by
  have hn : normalizeURL Parse "http://proxy.local"
      = .panic "runtime error: index out of range [-1]" := by
    simp [normalizeURL, h, parsedProxyLocal]
  refine ⟨hn, ?_, ?_⟩
  · intro err e
    rw [hn] at e
    cases e
  · refine ⟨"runtime error: index out of range [-1]", ?_⟩
    simp [DefaultIntercepter, hn]

/-- Witness of C10 with a `Parse` that returns the parsed `http://proxy.local`. -/
theorem normalizeURL_empty_path_panics_witness :
    normalizeURL (fun _ => .ok parsedProxyLocal) "http://proxy.local"
      = .panic "runtime error: index out of range [-1]" :=
  (normalizeURL_empty_path_panics (fun _ => .ok parsedProxyLocal) rfl).1

/-! ## The base URL normalizer: scheme, query, fragment and path -/

/-- C11 as stated fails: on the base `/inject/` of `example/main.go`, which
parses to a path without scheme and host, `normalizeURL` succeeds and the
scheme of the result is empty, neither `http` nor `https`. -/
theorem normalizeURL_scheme_not_http_for_path_only :
    normalizeURL (fun _ => .ok parsedInject) "/inject/" = .ok parsedInject ∧
    parsedInject.Scheme ≠ "http" ∧ parsedInject.Scheme ≠ "https" := by
  decide

/-- C11, amended: when `normalizeURL` succeeds on a base whose parsed URL has a
host, the resulting scheme is `http` or `https`; when the parsed URL has no
host, the scheme is left as parsed. -/
theorem normalizeURL_scheme (Parse : String → Except String URL) (base : String) (p u : URL)
    (hp : Parse base = .ok p) (hu : normalizeURL Parse base = .ok u) :
    (p.Host ≠ "" → u.Scheme = "http" ∨ u.Scheme = "https") ∧
    (p.Host = "" → u.Scheme = p.Scheme) := by
  unfold normalizeURL at hu
  rw [hp] at hu
  simp only at hu
  split at hu
  · cases hu
  · split at hu <;>
    · cases hu
      constructor
      · intro hh
        by_cases h1 : p.Scheme = "http"
        · simp [h1]
        · by_cases h2 : p.Scheme = "https"
          · simp [h2]
          · simp [h1, h2, hh]
      · intro hh
        simp [hh]

/-- Witness of C11, amended, at the base `http://proxy.local/inject?x=1#top`. -/
theorem normalizeURL_scheme_witness :
    normalizeURL (fun _ => .ok parsedInjectQuery) "http://proxy.local/inject?x=1#top"
      = .ok { Scheme := "http", Host := "proxy.local", Path := "/inject/" } ∧
    ((parsedInjectQuery.Host ≠ "" →
        ({ Scheme := "http", Host := "proxy.local", Path := "/inject/" } : URL).Scheme = "http" ∨
        ({ Scheme := "http", Host := "proxy.local", Path := "/inject/" } : URL).Scheme = "https") ∧
      (parsedInjectQuery.Host = "" →
        ({ Scheme := "http", Host := "proxy.local", Path := "/inject/" } : URL).Scheme
          = parsedInjectQuery.Scheme)) :=
  ⟨by decide,
    normalizeURL_scheme (fun _ => .ok parsedInjectQuery) "http://proxy.local/inject?x=1#top"
      parsedInjectQuery _ rfl (by decide)⟩

/-- The second pass of `normalizeURL`: a URL with a settled scheme, no query,
no fragment and a path that ends in `/` is returned as it is. -/
theorem normalizeURL_of_normal (Parse : String → Except String URL) (base : String) (u : URL)
    (hp : Parse base = .ok u)
    (hs : u.Scheme = "http" ∨ u.Scheme = "https" ∨ u.Host = "")
    (hq : u.RawQuery = "") (hf : u.Fragment = "")
    (hl : u.Path.data.getLast? = some '/') :
    normalizeURL Parse base = .ok u := by
  have hc : ¬ (u.Scheme ≠ "http" ∧ u.Scheme ≠ "https" ∧ u.Host ≠ "") := by
    rintro ⟨a, b, c⟩
    rcases hs with h | h | h
    · exact a h
    · exact b h
    · exact c h
  have hu : ({ u with RawQuery := "", Fragment := "" } : URL) = u := by
    cases u
    simp_all
  unfold normalizeURL
  rw [hp]
  simp only [hc, if_false, hu, hl]
  simp

/-- The URL that `normalizeURL` builds before it looks at the path: the scheme
settled, the query and the fragment removed. -/
theorem normalizeURL_of_parsed (Parse : String → Except String URL) (base : String) (p : URL)
    (c : Char) (hp : Parse base = .ok p) (hc : p.Path.data.getLast? = some c) :
    normalizeURL Parse base =
      .ok (if c ≠ '/' then
          { Scheme := if p.Scheme ≠ "http" ∧ p.Scheme ≠ "https" ∧ p.Host ≠ "" then "http"
              else p.Scheme,
            Opaque := p.Opaque, User := p.User, Host := p.Host, Path := p.Path ++ "/",
            RawPath := p.RawPath, OmitHost := p.OmitHost, ForceQuery := p.ForceQuery,
            RawQuery := "", Fragment := "", RawFragment := p.RawFragment }
        else
          { Scheme := if p.Scheme ≠ "http" ∧ p.Scheme ≠ "https" ∧ p.Host ≠ "" then "http"
              else p.Scheme,
            Opaque := p.Opaque, User := p.User, Host := p.Host, Path := p.Path,
            RawPath := p.RawPath, OmitHost := p.OmitHost, ForceQuery := p.ForceQuery,
            RawQuery := "", Fragment := "", RawFragment := p.RawFragment }) := by
  unfold normalizeURL
  rw [hp]
  by_cases hcond : p.Scheme ≠ "http" ∧ p.Scheme ≠ "https" ∧ p.Host ≠ ""
  · by_cases hs : c = '/' <;> simp [hcond, hc, hs]
  · by_cases hs : c = '/' <;> simp [hcond, hc, hs]

/-- C12: for every parsed URL with a non-empty path, `normalizeURL` returns a
URL whose query string and fragment are empty and whose path ends in `/`: the
path is unchanged when it already ends in `/` and has exactly one `/` appended
otherwise; host and user-info are unchanged.  Normalizing a base that parses
to the URL so returned gives that URL again. -/
theorem normalizeURL_strips_and_closes (Parse : String → Except String URL) (base : String)
    (p : URL) (hp : Parse base = .ok p) (hne : p.Path ≠ "") :
    ∃ u, normalizeURL Parse base = .ok u ∧
      u.RawQuery = "" ∧ u.Fragment = "" ∧
      u.Path.data.getLast? = some '/' ∧
      (p.Path.data.getLast? = some '/' → u.Path = p.Path) ∧
      (p.Path.data.getLast? ≠ some '/' → u.Path = p.Path ++ "/") ∧
      u.Host = p.Host ∧ u.User = p.User ∧
      (∀ base2, Parse base2 = .ok u → normalizeURL Parse base2 = .ok u) := by
  have hdata : p.Path.data ≠ [] := by
    intro h
    apply hne
    cases hpp : p.Path with
    | mk l => rw [hpp] at h; simp at h; rw [h]
  obtain ⟨c, hc⟩ : ∃ c, p.Path.data.getLast? = some c := by
    cases h : p.Path.data.getLast? with
    | none => exact absurd (List.getLast?_eq_none_iff.mp h) hdata
    | some c => exact ⟨c, rfl⟩
  have hsch : ∀ h : String, (if p.Scheme ≠ "http" ∧ p.Scheme ≠ "https" ∧ h ≠ "" then "http"
      else p.Scheme) = "http" ∨ (if p.Scheme ≠ "http" ∧ p.Scheme ≠ "https" ∧ h ≠ "" then "http"
      else p.Scheme) = "https" ∨ h = "" := by
    intro h
    by_cases h1 : p.Scheme = "http"
    · simp [h1]
    · by_cases h3 : p.Scheme = "https"
      · simp [h3]
      · by_cases h4 : h = ""
        · simp [h4]
        · simp [h1, h3, h4]
  refine ⟨_, normalizeURL_of_parsed Parse base p c hp hc, ?_⟩
  by_cases hslash : c = '/'
  · subst hslash
    rw [if_neg (show ¬ ('/' : Char) ≠ '/' from fun h => h rfl)]
    refine ⟨rfl, rfl, hc, fun _ => rfl, fun h => absurd hc h, rfl, rfl, ?_⟩
    intro base2 h2
    exact normalizeURL_of_normal Parse base2 _ h2 (hsch p.Host) rfl rfl hc
  · have hlast : (p.Path ++ "/").data.getLast? = some '/' := by
      simp [String.data_append]
    rw [if_pos (show c ≠ '/' from hslash)]
    refine ⟨rfl, rfl, hlast, ?_, fun _ => rfl, rfl, rfl, ?_⟩
    · intro h
      rw [hc] at h
      exact absurd (Option.some.inj h) hslash
    · intro base2 h2
      exact normalizeURL_of_normal Parse base2 _ h2 (hsch p.Host) rfl rfl hlast

/-- Witness of C12 at the base `http://proxy.local/inject?x=1#top`. -/
theorem normalizeURL_strips_and_closes_witness :
    parsedInjectQuery.Path ≠ "" ∧
    ∃ u, normalizeURL (fun _ => .ok parsedInjectQuery) "http://proxy.local/inject?x=1#top"
        = .ok u ∧
      u.RawQuery = "" ∧ u.Fragment = "" ∧
      u.Path.data.getLast? = some '/' ∧
      (parsedInjectQuery.Path.data.getLast? = some '/' → u.Path = parsedInjectQuery.Path) ∧
      (parsedInjectQuery.Path.data.getLast? ≠ some '/' → u.Path = parsedInjectQuery.Path ++ "/") ∧
      u.Host = parsedInjectQuery.Host ∧ u.User = parsedInjectQuery.User ∧
      (∀ base2, (fun _ => Except.ok parsedInjectQuery : String → Except String URL) base2 = .ok u →
        normalizeURL (fun _ => .ok parsedInjectQuery) base2 = .ok u) :=
  ⟨by decide,
    normalizeURL_strips_and_closes (fun _ => .ok parsedInjectQuery)
      "http://proxy.local/inject?x=1#top" parsedInjectQuery rfl (by decide)⟩

/-! ## The request handler -/

/-- The modifier loop calls each entry of the list once, in list order, each on
the document the earlier ones left and each with the same page URL. -/
theorem runModifiers_eq (ms : List (Node → URL → Node)) (doc : Node) (pageURL : URL)
    (log : List URL) :
    runModifiers ms doc pageURL log =
      (ms.foldl (fun d modify => modify d pageURL) doc,
        log ++ List.replicate ms.length pageURL) := by
  induction ms generalizing doc log with
  | nil => simp [runModifiers]
  | cons m rest ih =>
    simp [runModifiers, ih, List.replicate_succ]

/-- C13: for every request, whatever its method: if building the upstream
request fails, the upstream fetch fails, or reading the response body fails,
`ServeHTTP` writes status 404 and exactly the fixed not-found body, and calls
no modifier. -/
theorem ServeHTTP_failure_404 (env : Env) (i : Intercepter) (r : Request)
    (h : (∃ err, ServeHTTP.newRequest env r = .error err) ∨
      (∃ newReq, ServeHTTP.newRequest env r = .ok newReq ∧
        ((∃ err, env.Do newReq = .error err) ∨
          (∃ resp err, env.Do newReq = .ok resp ∧ resp.Body = .error err)))) :
    ServeHTTP env i r = { StatusCode := 404, Body := url.bytes notFound, calls := [] } ∧
    notFound = "<!DOCTYPE html><html><head><title>Not found</title></head><body><h1>404 not found</h1>Sorry, we could not find the requested page!</body></html>" := by
  refine ⟨?_, rfl⟩
  rcases h with ⟨err, h1⟩ | ⟨newReq, h1, ⟨err, h2⟩ | ⟨resp, err, h2, h3⟩⟩
  · simp [ServeHTTP, h1, respond404]
  · simp [ServeHTTP, h1, h2, respond404]
  · simp [ServeHTTP, h1, h2, h3, respond404]

/-- Witness of C13: a `POST` request whose upstream connection is refused. -/
theorem ServeHTTP_failure_404_witness :
    ServeHTTP refusedEnv exampleIntercepter { URL := "/http:/example.com/", Method := "POST" }
      = { StatusCode := 404, Body := url.bytes notFound, calls := [] } :=
  (ServeHTTP_failure_404 refusedEnv exampleIntercepter
    { URL := "/http:/example.com/", Method := "POST" }
    (Or.inr ⟨_, rfl, Or.inl ⟨_, rfl⟩⟩)).1

/-- C14: when the upstream fetch and the body read succeed but HTML parsing of
the body fails, `ServeHTTP` responds with the upstream status code and the
upstream body, byte for byte, and calls no modifier. -/
theorem ServeHTTP_passthrough (env : Env) (i : Intercepter) (r : Request)
    (newReq : UpstreamRequest) (resp : UpstreamResponse) (b : List Nat) (err : String)
    (h1 : ServeHTTP.newRequest env r = .ok newReq) (h2 : env.Do newReq = .ok resp)
    (h3 : resp.Body = .ok b) (h4 : env.Parse b = .error err) :
    ServeHTTP env i r = { StatusCode := resp.StatusCode, Body := b, calls := [] } := by
  simp [ServeHTTP, h1, h2, h3, h4]

/-- A body of `n` nested `<div>` start tags opens `n` elements more. -/
theorem openDepth_replicate_div (n cur deepest : Nat) (h : cur ≤ deepest) :
    openDepth (List.replicate n [60, 100, 105, 118, 62]).flatten cur deepest
      = max deepest (cur + n) := by
  induction n generalizing cur deepest with
  | zero => simp [openDepth]; omega
  | succ n ih =>
    simp only [List.replicate_succ, List.flatten_cons, List.cons_append, List.nil_append,
      List.append_eq, openDepth]
    rw [ih (cur + 1) (max deepest (cur + 1)) (by omega)]
    omega

/-- The stand-in parser rejects the body of 600 nested `<div>` start tags. -/
theorem depthLimitParse_deepBody :
    unparsableEnv.Parse deepBody = .error "html: open stack of elements exceeds 512 nodes" := by
  simp only [unparsableEnv, depthLimitParse, deepBody]
  rw [openDepth_replicate_div 600 0 0 (Nat.le_refl 0)]
  simp

/-- Witness of C14: upstream answers 200 with 600 nested `<div>` start tags,
which `html.Parse` rejects; the 3000 bytes are passed through as they are. -/
theorem ServeHTTP_passthrough_witness :
    unparsableEnv.Parse deepBody = .error "html: open stack of elements exceeds 512 nodes" ∧
    ServeHTTP unparsableEnv exampleIntercepter { URL := "/http:/example.com/" }
      = { StatusCode := 200, Body := deepBody, calls := [] } :=
  ⟨depthLimitParse_deepBody,
    ServeHTTP_passthrough unparsableEnv exampleIntercepter { URL := "/http:/example.com/" }
      _ { StatusCode := 200, Body := .ok deepBody, Location := .error "" } deepBody
      "html: open stack of elements exceeds 512 nodes" rfl rfl rfl depthLimitParse_deepBody⟩

/-- C19: on a successfully parsed response `ServeHTTP` calls the entries of
`Intercepter.Modifier` in list order, each once, each on the document the
earlier ones left and each with the same resolved page URL (the response's
location, else the URL of the upstream request), and renders the result with
the upstream status code; an intercepter built by `DefaultIntercepter(base)`
has exactly one modifier, which is `modifyDOM` with the base URL
`normalizeURL(base)`. -/
theorem ServeHTTP_runs_modifiers (env : Env) (i : Intercepter) (r : Request)
    (newReq : UpstreamRequest) (resp : UpstreamResponse) (b : List Nat) (doc : Node)
    (h1 : ServeHTTP.newRequest env r = .ok newReq) (h2 : env.Do newReq = .ok resp)
    (h3 : resp.Body = .ok b) (h4 : env.Parse b = .ok doc) (pageURL : URL)
    (h5 : (match resp.Location with
      | .ok loc => loc
      | .error _ => newReq.URL) = pageURL) :
    ServeHTTP env i r =
      { StatusCode := resp.StatusCode,
        Body := env.Render (i.Modifier.foldl (fun d modify => modify d pageURL) doc),
        calls := List.replicate i.Modifier.length pageURL } ∧
    (∀ (Parse : String → Except String URL) (base : String) (j : Intercepter),
      DefaultIntercepter Parse base = .ok j →
      ∃ baseURL, normalizeURL Parse base = .ok baseURL ∧ j.BaseURL = baseURL ∧
        ∃ modify, j.Modifier = [modify] ∧
          ∀ root pageURL, modify root pageURL = modifyDOM root pageURL baseURL) := by
  constructor
  · subst h5
    simp [ServeHTTP, h1, h2, h3, h4, runModifiers_eq]
  · intro Parse base j hj
    unfold DefaultIntercepter at hj
    cases hn : normalizeURL Parse base with
    | error e => rw [hn] at hj; cases hj
    | panic m => rw [hn] at hj; cases hj
    | ok baseURL =>
      rw [hn] at hj
      cases hj
      exact ⟨baseURL, rfl, rfl, DefaultModifier baseURL, rfl, fun _ _ => rfl⟩

/-- Witness of C19: upstream answers 200 with `<a href="/login"><img
src="/logo.png"></a>` and the default modifier rewrites it for the page
`http://example.com/a/b.html`. -/
theorem ServeHTTP_runs_modifiers_witness :
    ServeHTTP parsedEnv exampleIntercepter { URL := "/http:/example.com/a/b.html" } =
      { StatusCode := 200,
        Body := exampleRender (modifyDOM exampleDoc examplePage exampleBase),
        calls := [examplePage] } :=
  (ServeHTTP_runs_modifiers parsedEnv exampleIntercepter { URL := "/http:/example.com/a/b.html" }
    _ { StatusCode := 200, Body := .ok [], Location := .error "" } [] exampleDoc
    rfl rfl rfl rfl examplePage rfl).1

/-! ## Relative urls -/

/-- Go `path.Clean` never returns the empty string. -/
theorem path.Clean_ne_empty (p : String) : path.Clean p ≠ "" := by
  unfold path.Clean
  split
  · decide
  · simp only
    split_ifs with h1 h2 h2
    · decide
    · intro h
      have := congrArg String.length h
      simp [String.length] at this
      exact h2 (by simp [this])
    · decide
    · intro h
      have := congrArg String.length h
      simp [String.length] at this
      exact h2 (by simp [this])

/-- Go `path.Join` of a non-empty first element and a second element: the two
joined by a slash, cleaned. -/
theorem path.Join_pair (d e : String) (hd : d ≠ "") :
    path.Join [d, e] = path.Clean (d ++ "/" ++ e) := by
  have hlen : 0 < d.data.length := by
    cases d with
    | mk l =>
      cases l with
      | nil => exact absurd rfl hd
      | cons x xs => simp
  have hsize : d.data.length + e.data.length ≠ 0 := by omega
  have hdata : (d ++ "/" ++ e) = ⟨d.data ++ ['/'] ++ e.data⟩ := by
    apply String.ext
    simp [String.data_append]
  unfold path.Join
  simp only [List.map, List.sum_cons, List.sum_nil, Nat.add_zero, hsize, if_false,
    List.foldl, path.joinStep]
  have hlen2 : 0 < d.length := hlen
  simp [hlen2, hd, hdata]

/-- C15: on the page `http://example.com/a/b.html` the relative url `c.png` is
resolved to the path `c.png`, which does not begin with `/`, and `remoteURL`
returns `http://example.comc.png`: the host runs into the file name. -/
theorem remoteURL_relative_no_slash :
    path.Dir examplePage.RawPath = "." ∧
    path.Join [path.Dir examplePage.RawPath, "c.png"] = "c.png" ∧
    strings.HasPrefix (path.Join [path.Dir examplePage.RawPath, "c.png"]) "/" = false ∧
    remoteURL "c.png" examplePage = "http://example.comc.png" := by
  decide

/-- The index that `LastIndexChar` returns is `-1` only when the character does
not occur, and the character does not occur after it. -/
theorem strings.LastIndexChar_spec (l : List Char) (c : Char) :
    (strings.LastIndexChar l c = -1 → c ∉ l) ∧ -1 ≤ strings.LastIndexChar l c ∧
    c ∉ l.drop (strings.LastIndexChar l c + 1).toNat := by
  induction l with
  | nil => simp [strings.LastIndexChar]
  | cons x xs ih =>
    obtain ⟨ih1, ih2, ih3⟩ := ih
    unfold strings.LastIndexChar
    simp only
    by_cases h0 : 0 ≤ strings.LastIndexChar xs c
    · simp only [h0, if_true]
      refine ⟨fun h => by omega, by omega, ?_⟩
      have e : (strings.LastIndexChar xs c + 1 + 1).toNat
          = (strings.LastIndexChar xs c + 1).toNat + 1 := by omega
      rw [e, List.drop_succ_cons]
      exact ih3
    · have hm : strings.LastIndexChar xs c = -1 := by omega
      have hnot := ih1 hm
      simp only [h0, if_false]
      by_cases hx : x = c
      · simp only [hx, if_true]
        refine ⟨fun h => by omega, by omega, ?_⟩
        simpa using hnot
      · simp only [hx, if_false]
        refine ⟨fun _ => ?_, by omega, ?_⟩
        · simp only [List.mem_cons, not_or]
          exact ⟨fun h => hx h.symm, hnot⟩
        · simp only [Int.reduceNeg, Int.add_left_neg, Int.toNat_zero, List.drop_zero,
            List.mem_cons, not_or]
          exact ⟨fun h => hx h.symm, hnot⟩

/-- Go `path.Split` cuts a path after its last slash: the two parts make up the
path and the second has no slash. -/
theorem path.Split_spec (p : String) :
    (path.Split p).1 ++ (path.Split p).2 = p ∧ '/' ∉ (path.Split p).2.data := by
  constructor
  · apply String.ext
    simp [path.Split, String.data_append]
  · exact (strings.LastIndexChar_spec p.data '/').2.2

/-- C16: for every relative url (one that begins with none of `/`, `http://`,
`https://`, `mailto:`) `remoteURL` is `hostURL(page)` followed by
`path.Join(path.Dir(page.RawPath), url)` and `localURL` is the base followed by
the same string; `path.Dir` cleans the raw path cut after its last slash, and
`path.Join` cleans the directory, a slash and the url. -/
theorem relative_rule (url : String) (pageURL baseURL : URL)
    (h1 : strings.HasPrefix url "/" = false) (h2 : strings.HasPrefix url "http://" = false)
    (h3 : strings.HasPrefix url "https://" = false)
    (h4 : strings.HasPrefix url "mailto:" = false) :
    remoteURL url pageURL = hostURL pageURL ++ path.Join [path.Dir pageURL.RawPath, url] ∧
    localURL url pageURL baseURL =
      baseURL.String ++ hostURL pageURL ++ path.Join [path.Dir pageURL.RawPath, url] ∧
    (∃ dir file, pageURL.RawPath = dir ++ file ∧ '/' ∉ file.data ∧
      path.Dir pageURL.RawPath = path.Clean dir) ∧
    path.Join [path.Dir pageURL.RawPath, url]
      = path.Clean (path.Dir pageURL.RawPath ++ "/" ++ url) := by
  have h0 : strings.HasPrefix url "//" = false := by
    cases e : strings.HasPrefix url "//" with
    | false => rfl
    | true =>
      have := strings.HasPrefix_slash_of_slashslash e
      rw [h1] at this
      cases this
  refine ⟨by simp [remoteURL, h0, h1, h2, h3, h4], by simp [localURL, h0, h1, h2, h3, h4],
    ⟨(path.Split pageURL.RawPath).1, (path.Split pageURL.RawPath).2,
      (path.Split_spec pageURL.RawPath).1.symm, (path.Split_spec pageURL.RawPath).2, rfl⟩,
    path.Join_pair _ _ (path.Clean_ne_empty _)⟩

/-- Witness of C16: the url `../x//y.png` on the page `http://example.com/a%2Fb/c.html`. -/
theorem relative_rule_witness :
    (strings.HasPrefix "../x//y.png" "/" = false ∧
      strings.HasPrefix "../x//y.png" "http://" = false ∧
      strings.HasPrefix "../x//y.png" "https://" = false ∧
      strings.HasPrefix "../x//y.png" "mailto:" = false) ∧
    remoteURL "../x//y.png" escapedPage = "http://example.com/x/y.png" ∧
    localURL "../x//y.png" escapedPage exampleBase
      = "http://proxy.local/inject/http://example.com/x/y.png" :=
  have h := relative_rule "../x//y.png" escapedPage exampleBase
    (by decide) (by decide) (by decide) (by decide)
  ⟨by decide, h.1.trans (by decide), h.2.1.trans (by decide)⟩

/-! ## The traversal of the document -/

/-- The attribute loop body of `modifyDOM` against the rewrite rule of the
spec: the value is replaced by the rule's result, the rest is kept. -/
theorem modifyAttr_eq_rewriteRule (T : Atom) (a : Attribute) (pageURL baseURL : URL) :
    modifyAttr T a pageURL baseURL =
      ⟨a.Namespace, a.Key, rewriteRule T a.Key a.Val pageURL baseURL⟩ := by
  unfold modifyAttr rewriteRule
  split_ifs <;> rfl

/-- The node that a chain of links reaches in the rewritten document is the
rewritten node that the chain reaches in the original document. -/
theorem follow_modifyDOM (n : Node) (p : List html.Link) (pageURL baseURL : URL) :
    (modifyDOM n pageURL baseURL).follow p = modifyDOM (n.follow p) pageURL baseURL := by
  induction p generalizing n with
  | nil => simp [html.Node.follow]
  | cons l p ih =>
    cases n with
    | nil => simp [modifyDOM, html.Node.follow]
    | node t T d ns attrs child next =>
      cases l with
      | FirstChild => simp only [modifyDOM, html.Node.follow]; exact ih child
      | NextSibling => simp only [modifyDOM, html.Node.follow]; exact ih next

/-- The rewriter changes no attribute but its value, and the value only when
the key is one that a rule names. -/
theorem blank_modifyAttr (T : Atom) (a : Attribute) (pageURL baseURL : URL) :
    (modifyAttr T a pageURL baseURL).blank = a.blank := by
  unfold modifyAttr html.Attribute.blank html.rewrittenKeys
  split_ifs <;> simp_all

/-- C17: `modifyDOM` is total, and every node that a chain of `FirstChild` and
`NextSibling` links reaches from the node it is given, whatever its tag and
depth, is found at the same place after the call with each of its attributes
holding the rewrite rule (local for anchor/href and form/action, remote for
src/href/data-src, identity otherwise) applied once to the original value. -/
theorem modifyDOM_visits_every_node (root : Node) (pageURL baseURL : URL)
    (p : List html.Link) (t : html.NodeType) (T : Atom) (d ns : String)
    (attrs : List Attribute) (child next : Node)
    (h : root.follow p = .node t T d ns attrs child next) :
    (modifyDOM root pageURL baseURL).follow p =
      .node t T d ns
        (attrs.map (fun a => ⟨a.Namespace, a.Key, rewriteRule T a.Key a.Val pageURL baseURL⟩))
        (modifyDOM child pageURL baseURL) (modifyDOM next pageURL baseURL) := by
  rw [follow_modifyDOM, h]
  simp only [modifyDOM, modifyAttr_eq_rewriteRule]

/-- Witness of C17: the `img` element that is the first child of the anchor of
`<a href="/login"><img src="/logo.png" alt="/logo"></a>`. -/
theorem modifyDOM_visits_every_node_witness :
    (modifyDOM exampleDoc examplePage exampleBase).follow [.FirstChild] =
      .node .ElementNode (Atom.Other "img") "img" ""
        [⟨"", "src", "http://example.com/logo.png"⟩, ⟨"", "alt", "/logo"⟩] .nil .nil :=
  (modifyDOM_visits_every_node exampleDoc examplePage exampleBase [.FirstChild]
    .ElementNode (Atom.Other "img") "img" ""
    [⟨"", "src", "/logo.png"⟩, ⟨"", "alt", "/logo"⟩] .nil .nil rfl).trans (by decide)

/-- C18: `modifyDOM` changes nothing but the values of `href`, `action`, `src`
and `data-src` attributes: the document with these values blanked is the same
before and after, a chain of links ends in nil after the call exactly when it
does before, and a node keeps its type, tag, data and namespace and has an
attribute list of the same length with the same keys in the same order, in
which every attribute with another key is unchanged. -/
theorem modifyDOM_frame (root : Node) (pageURL baseURL : URL) :
    (modifyDOM root pageURL baseURL).blank = root.blank ∧
    (∀ p, (modifyDOM root pageURL baseURL).follow p = .nil ↔ root.follow p = .nil) ∧
    (∀ (p : List html.Link) (t : html.NodeType) (T : Atom) (d ns : String)
        (attrs : List Attribute) (child next : Node),
      root.follow p = .node t T d ns attrs child next →
      ∃ (attrs2 : List Attribute) (child2 next2 : Node),
        (modifyDOM root pageURL baseURL).follow p = .node t T d ns attrs2 child2 next2 ∧
        attrs2.length = attrs.length ∧
        attrs2.map (fun a => a.Key) = attrs.map (fun a => a.Key) ∧
        (∀ (k : Nat) (a : Attribute),
          attrs[k]? = some a → a.Key ∉ html.rewrittenKeys → attrs2[k]? = some a)) := by
  refine ⟨?_, ?_, ?_⟩
  · induction root with
    | nil => rfl
    | node t T d ns attrs child next ihc ihn =>
      simp only [modifyDOM, html.Node.blank, ihc, ihn, List.map_map]
      congr 1
      apply List.map_congr_left
      intro a _
      exact blank_modifyAttr T a pageURL baseURL
  · intro p
    rw [follow_modifyDOM]
    cases root.follow p <;> simp [modifyDOM]
  · intro p t T d ns attrs child next h
    refine ⟨_, _, _, by rw [follow_modifyDOM, h]; rfl, by simp, ?_, ?_⟩
    · simp only [List.map_map]
      apply List.map_congr_left
      intro a _
      simp [modifyAttr_eq_rewriteRule]
    · intro k a hk hkey
      simp only [List.getElem?_map, hk, Option.map_some']
      congr 1
      unfold html.rewrittenKeys at hkey
      unfold modifyAttr
      split_ifs <;> simp_all

/-! ## Rewriting twice -/

/-- A string has a prefix when its characters are those of the prefix followed by more. -/
theorem strings.HasPrefix_iff (s pre : String) :
    strings.HasPrefix s pre = true ↔ ∃ t, s.data = pre.data ++ t := by
  unfold strings.HasPrefix
  rw [List.isPrefixOf_iff_prefix]
  constructor
  · rintro ⟨t, ht⟩
    exact ⟨t, ht.symm⟩
  · rintro ⟨t, ht⟩
    exact ⟨t, ht.symm⟩

/-- A prefix of a string is a prefix of the string followed by another. -/
theorem strings.HasPrefix_append (a b pre : String) (h : strings.HasPrefix a pre = true) :
    strings.HasPrefix (a ++ b) pre = true := by
  obtain ⟨t, ht⟩ := (strings.HasPrefix_iff a pre).mp h
  exact (strings.HasPrefix_iff _ _).mpr ⟨t ++ b.data, by simp [String.data_append, ht]⟩

/-- The host prefix of a page begins with the page's scheme and `://`. -/
theorem hostURL_HasPrefix (u : URL) (hs : u.Scheme ≠ "") :
    strings.HasPrefix (hostURL u) (u.Scheme ++ "://") = true := by
  unfold hostURL
  cases u.User with
  | none =>
    simp only [hs, if_false]
    exact strings.HasPrefix_append _ _ _ ((strings.HasPrefix_iff _ _).mpr ⟨[], by simp⟩)
  | some ui =>
    simp only [hs, if_false]
    refine strings.HasPrefix_append _ _ _ ?_
    refine strings.HasPrefix_append _ _ _ ?_
    refine strings.HasPrefix_append _ _ _ ?_
    exact (strings.HasPrefix_iff _ _).mpr ⟨[], by simp⟩

/-- A url that begins with `http://` or `https://` is a fixed point of `remoteURL`. -/
theorem remoteURL_of_absolute (url : String) (pageURL : URL)
    (h : strings.HasPrefix url "http://" = true ∨ strings.HasPrefix url "https://" = true) :
    remoteURL url pageURL = url := by
  have n1 : strings.HasPrefix url "/" = false := by
    cases e : strings.HasPrefix url "/" with
    | false => rfl
    | true =>
      rcases h with h | h <;>
        exact absurd (strings.HasPrefix_head_eq rfl rfl h e) (by decide)
  have n2 : strings.HasPrefix url "//" = false := by
    cases e : strings.HasPrefix url "//" with
    | false => rfl
    | true =>
      rcases h with h | h <;>
        exact absurd (strings.HasPrefix_head_eq rfl rfl h e) (by decide)
  simp [remoteURL, n1, n2, h]

/-- The result of `remoteURL` on a page with scheme `http` or `https` begins
with `http://` or `https://`, or is the `mailto:` url it was given. -/
theorem remoteURL_absolute_or_mailto (url : String) (pageURL : URL)
    (hs : pageURL.Scheme = "http" ∨ pageURL.Scheme = "https") :
    (strings.HasPrefix (remoteURL url pageURL) "http://" = true ∨
      strings.HasPrefix (remoteURL url pageURL) "https://" = true) ∨
    (strings.HasPrefix url "mailto:" = true ∧ remoteURL url pageURL = url) := by
  have hne : pageURL.Scheme ≠ "" := by
    rcases hs with h | h <;> rw [h] <;> decide
  have hhost : ∀ x : String, strings.HasPrefix (hostURL pageURL ++ x) "http://" = true ∨
      strings.HasPrefix (hostURL pageURL ++ x) "https://" = true := by
    intro x
    have hp := strings.HasPrefix_append _ x _ (hostURL_HasPrefix pageURL hne)
    rcases hs with h | h
    · left
      rw [h] at hp
      exact hp
    · right
      rw [h] at hp
      exact hp
  unfold remoteURL
  by_cases c1 : strings.HasPrefix url "//" = true
  · left
    simp only [c1, if_true]
    obtain ⟨t, ht⟩ := (strings.HasPrefix_iff url "//").mp c1
    rcases hs with h | h
    · left
      rw [h]
      exact (strings.HasPrefix_iff _ _).mpr ⟨t, by simp [String.data_append, ht]⟩
    · right
      rw [h]
      exact (strings.HasPrefix_iff _ _).mpr ⟨t, by simp [String.data_append, ht]⟩
  · simp only [c1, if_false]
    by_cases c2 : strings.HasPrefix url "/" = true
    · left
      simp only [c2, if_true]
      exact hhost url
    · simp only [c2, if_false]
      by_cases c3 : strings.HasPrefix url "http://" = true ∨ strings.HasPrefix url "https://" = true
      · left
        simp only [c3, if_true]
        exact c3
      · simp only [c3, if_false]
        by_cases c4 : strings.HasPrefix url "mailto:" = true
        · right
          simp only [c4, if_true]
          exact ⟨trivial, by simp⟩
        · left
          simp only [c4, if_false]
          exact hhost _

/-- C20: on a page whose scheme is `http` or `https`, `remoteURL` is
idempotent: its result begins with `http://` or `https://` or is the unchanged
`mailto:` url, so a second call returns it as it is; and running the
attribute rule a second time leaves every attribute that is rewritten in
remote mode, or not at all, unchanged. -/
theorem remoteURL_idempotent (url : String) (pageURL : URL)
    (hs : pageURL.Scheme = "http" ∨ pageURL.Scheme = "https") :
    remoteURL (remoteURL url pageURL) pageURL = remoteURL url pageURL ∧
    ((strings.HasPrefix (remoteURL url pageURL) "http://" = true ∨
        strings.HasPrefix (remoteURL url pageURL) "https://" = true) ∨
      (strings.HasPrefix url "mailto:" = true ∧ remoteURL url pageURL = url)) ∧
    (∀ (T : Atom) (a : Attribute) (baseURL : URL),
      ¬ ((T = Atom.A ∧ a.Key = "href") ∨ (T = Atom.Form ∧ a.Key = "action")) →
      modifyAttr T (modifyAttr T a pageURL baseURL) pageURL baseURL
        = modifyAttr T a pageURL baseURL) := by
  have key : ∀ u : String, remoteURL (remoteURL u pageURL) pageURL = remoteURL u pageURL := by
    intro u
    rcases remoteURL_absolute_or_mailto u pageURL hs with h | ⟨_, h2⟩
    · exact remoteURL_of_absolute _ pageURL h
    · rw [h2, h2]
  refine ⟨key url, remoteURL_absolute_or_mailto url pageURL hs, ?_⟩
  intro T a baseURL hloc
  unfold modifyAttr
  by_cases hk : a.Key = "src" ∨ a.Key = "href" ∨ a.Key = "data-src"
  · simp only [hloc, if_false, hk, if_true, key]
  · simp only [hloc, if_false, hk]

/-- Witness of C20: the relative url `../x//y.png` on the page
`http://example.com/a%2Fb/c.html`. -/
theorem remoteURL_idempotent_witness :
    (escapedPage.Scheme = "http" ∨ escapedPage.Scheme = "https") ∧
    remoteURL (remoteURL "../x//y.png" escapedPage) escapedPage
      = remoteURL "../x//y.png" escapedPage :=
  ⟨Or.inl (by decide), (remoteURL_idempotent "../x//y.png" escapedPage (Or.inl (by decide))).1⟩

end Intercept
